import Mathlib

/-!
Verification of the differential deployment engine of
`src/app/back-end/modules/deploy/deployment.js` (class `Deployment`).

The JavaScript source is shallowly embedded below:

* file-list entries (`{path, type, md5}`) become the structure `FileEntry`
  (the JS value `md5: false` is modelled as `Option.none`);
* the diff computed by `Deployment.compareFilesList` becomes the pure
  functions `filesToRemove` / `filesToUpload` over the two parsed lists;
* `Array.prototype.sort(comparator)` is modelled by `jsSort`, a
  left-to-right insertion sort that places each element directly before the
  first element `y` of the already-sorted array with `comparator x y < 0`
  (this matches the observable behaviour of the engine's binary insertion
  sort, and is a stable sort whenever the comparator is consistent);
* `Array.prototype.pop` consumption in `removeFile` / `uploadFile` makes the
  transport see the sorted array reversed, which `removalExecutionOrder` /
  `uploadExecutionOrder` capture;
* the `fs` reads/writes of `files.publii.json`, `files-remote.json` and
  `sync-revision.json` are modelled by `SyncFiles` / `FileData`, and
  `checkLocalListWithRemoteList` by a total function on parse results in
  which a JS exception is an `Except.error` of the `checkBody` computation
  (the `try`/`catch` of the source is the final `match`).

MD5 itself and the `isBinaryFileSync` test are kept abstract: every theorem
quantifies over the digest function and the binary-detection oracle.
-/

namespace Publii

/-- The `type` field of an entry of `files.publii.json`: `"file"` or
`"directory"`. -/
inductive FileType where
  | file
  | directory
deriving DecidableEq, Repr

/-- One entry of a files list, as produced by `prepareLocalFilesList` and as
parsed from `files-remote.json`: `{path, type, md5}` where `md5` is `false`
(here `none`) for directories. -/
structure FileEntry where
  path : String
  type : FileType
  md5 : Option String
deriving DecidableEq, Repr

/-- An entry reduced to `{path, type}`, the shape pushed onto
`filesToRemove` / `filesToUpload` by `compareFilesList`. -/
structure SimpleEntry where
  path : String
  type : FileType
deriving DecidableEq, Repr

/-- The deployment protocols of `siteConfig.deployment.protocol` that the
source distinguishes. -/
inductive Protocol where
  | ftp
  | sftp
  | s3
  | git
  | githubPages
  | gitlabPages
  | netlify
  | googleCloud
  | manual
deriving DecidableEq, Repr

/-- The check `protocol === 'google-cloud' || protocol === 'gitlab-pages'`
used by `compareFilesList` (lines 305 and 336) and by
`prepareLocalFilesList` (lines 155-156) to drop directory entries. -/
def Protocol.noDirectoryEntries : Protocol → Bool
  | .googleCloud => true
  | .gitlabPages => true
  | _ => false

/-- Inner loop of the removal detection (lines 296-301): `fileFounded` is set
when some local entry has the same `path` as the remote entry. -/
def fileFounded (localFiles : List FileEntry) (remoteFile : FileEntry) : Bool :=
  localFiles.any (fun localFile => localFile.path == remoteFile.path)

/-- Removal detection of `compareFilesList` (lines 290-316): every remote
entry with no local entry at the same path is pushed as `{path, type}`,
except directory entries for the google-cloud / gitlab-pages protocols. -/
def filesToRemove (protocol : Protocol) (localFiles remoteFiles : List FileEntry) :
    List SimpleEntry :=
  (remoteFiles.filter (fun remoteFile =>
      !fileFounded localFiles remoteFile &&
      !(protocol.noDirectoryEntries && remoteFile.type == .directory))).map
    (fun remoteFile => { path := remoteFile.path, type := remoteFile.type })

/-- Inner loop of the upload detection (lines 322-332): the local entry is
kept out of the upload set exactly when some remote entry matches it on both
`path` and `md5`. -/
def fileShouldBeUploaded (remoteFiles : List FileEntry) (localFile : FileEntry) : Bool :=
  !remoteFiles.any (fun remoteFile =>
      localFile.path == remoteFile.path && localFile.md5 == remoteFile.md5)

/-- Upload detection of `compareFilesList` (lines 318-347): every local entry
with no remote `path`+`md5` match is pushed as `{path, type}`, except
directory entries for the google-cloud / gitlab-pages protocols. -/
def filesToUpload (protocol : Protocol) (localFiles remoteFiles : List FileEntry) :
    List SimpleEntry :=
  (localFiles.filter (fun localFile =>
      fileShouldBeUploaded remoteFiles localFile &&
      !(protocol.noDirectoryEntries && localFile.type == .directory))).map
    (fun localFile => { path := localFile.path, type := localFile.type })

/-- The operation counter of `compareFilesList` (lines 352-357): for the s3
protocol only `type === 'file'` entries of the two computed stacks count,
otherwise all entries count, plus one final operation either way. -/
def operationsCounter (protocol : Protocol) (toRemove toUpload : List SimpleEntry) : Nat :=
  if protocol == .s3 then
    (toRemove.filter (fun file => file.type == .file)).length +
      (toUpload.filter (fun file => file.type == .file)).length + 1
  else
    toRemove.length + toUpload.length + 1

/-- Model of `Array.prototype.sort(cmp)` insertion: `x` is placed directly
before the first element `y` of the already-sorted array with `cmp x y < 0`,
and after every element it does not strictly precede. -/
def jsInsert (cmp : α → α → Int) (x : α) : List α → List α
  | [] => [x]
  | y :: ys => if cmp x y < 0 then x :: y :: ys else y :: jsInsert cmp x ys

/-- Model of `Array.prototype.sort(cmp)`: left-to-right insertion using
`jsInsert`, stable for elements the comparator ties. -/
def jsSort (cmp : α → α → Int) (l : List α) : List α :=
  l.foldl (fun sorted x => jsInsert cmp x sorted) []

/-- Comparator of `this.filesToRemove.sort` (lines 382-392): a directory as
first argument sorts to the front, a directory as second argument pushes the
first argument back, files tie. -/
def removeCompare (fileA fileB : SimpleEntry) : Int :=
  if fileA.type == .directory then -1
  else if fileB.type == .directory then 1
  else 0

/-- First comparator of `this.filesToUpload.sort` (lines 394-413): a
directory as first argument sorts to the back, then binary files (per the
`isBinaryFileSync` oracle on the entry path) sort to the front, other files
tie. -/
def uploadCompareBinary (isBinaryFile : String → Bool) (fileA fileB : SimpleEntry) : Int :=
  if fileA.type == .directory then 1
  else if fileB.type == .directory then -1
  else if isBinaryFile fileA.path then -1
  else if isBinaryFile fileB.path then 1
  else 0

/-- Second comparator of `this.filesToUpload.sort` (lines 416-434): two
directories compare by path length (shorter-or-equal sorts later), a
directory always sorts after a file, files tie. -/
def uploadCompareDepth (fileA fileB : SimpleEntry) : Int :=
  if fileA.type == .directory && fileB.type == .directory then
    if fileA.path.length ≤ fileB.path.length then 1 else -1
  else if fileA.type == .directory then 1
  else if fileB.type == .directory then -1
  else 0

/-- The removal stack after `Deployment.sortFiles` (lines 382-392). -/
def sortFilesToRemove (toRemove : List SimpleEntry) : List SimpleEntry :=
  jsSort removeCompare toRemove

/-- The upload stack after `Deployment.sortFiles` (lines 394-434): the two
sorts are applied in source order. -/
def sortFilesToUpload (isBinaryFile : String → Bool) (toUpload : List SimpleEntry) :
    List SimpleEntry :=
  jsSort uploadCompareDepth (jsSort (uploadCompareBinary isBinaryFile) toUpload)

/-- Order in which `Deployment.removeFile` (lines 457-464) issues removal
entries to the transport: repeated `pop()` consumes the sorted array from
its end, i.e. reversed. -/
def removalExecutionOrder (toRemove : List SimpleEntry) : List SimpleEntry :=
  (sortFilesToRemove toRemove).reverse

/-- Order in which `Deployment.uploadFile` (lines 487-500) issues upload
entries to the transport: repeated `pop()` consumes the sorted array from
its end, i.e. reversed. -/
def uploadExecutionOrder (isBinaryFile : String → Bool) (toUpload : List SimpleEntry) :
    List SimpleEntry :=
  (sortFilesToUpload isBinaryFile toUpload).reverse

/-- Byte sequence hashed for a binary file (lines 171-176):
`Buffer.from((stats.size).toString().split(''))` coerces each decimal digit
character of the byte size to its numeric value, so the hashed bytes are the
digit values of the decimal representation of the size. -/
def md5SizeInput (size : Nat) : List Nat :=
  (Nat.toDigits 10 size).map (fun c => c.toNat - 48)

/-- Fingerprint assigned to a file by `prepareLocalFilesList` (lines
168-179): the digest of the raw content bytes for non-binary files, and the
digest of `md5SizeInput` of the byte size for binary files. The digest
function itself is abstract. -/
def fileFingerprint (md5 : List Nat → String) (isBinary : Bool) (content : List Nat) : String :=
  if isBinary then md5 (md5SizeInput content.length) else md5 content

/-- Abstraction of the filesystem queries `prepareLocalFilesList` performs on
a walk-produced relative path: `lstatSync(...).isDirectory()`,
`isBinaryFileSync(...)` and `readFileSync(...)` (with
`statSync(...).size` equal to the length of `content`). -/
structure LocalFS where
  isDirectory : String → Bool
  isBinaryFile : String → Bool
  content : String → List Nat

/-- The leading-slash strip of the directory branch (lines 150-152):
`if (filePath.indexOf('/') === 0) filePath = filePath.substr(1)`. -/
def stripLeadingSlash (filePath : String) : String :=
  match filePath.data with
  | '/' :: rest => ⟨rest⟩
  | _ => filePath

/-- The protocols for which a root-level `.htaccess` / `_redirects` entry is
excluded (line 135). -/
def excludedProtocols : List Protocol := [.s3, .githubPages, .googleCloud, .netlify]

/-- Per-path body of the `prepareLocalFilesList` loop (lines 129-186),
returning the entry pushed onto `fileList` for one walk-produced path, if
any. -/
def processLocalPath (protocol : Protocol) (md5 : List Nat → String) (fs : LocalFS)
    (filePath : String) : Option FileEntry :=
  if filePath == ".git" then none
  else if filePath == ".htaccess" || filePath == "_redirects" then
    if excludedProtocols.contains protocol then none
    else some { path := filePath, type := .file, md5 := some (md5 (fs.content filePath)) }
  else if fs.isDirectory filePath then
    if protocol.noDirectoryEntries then none
    else some { path := stripLeadingSlash filePath, type := .directory, md5 := none }
  else
    some { path := filePath, type := .file,
           md5 := some (fileFingerprint md5 (fs.isBinaryFile filePath) (fs.content filePath)) }

/-- The `fileList` built by `prepareLocalFilesList` from the walk result. -/
def prepareLocalFilesList (protocol : Protocol) (md5 : List Nat → String) (fs : LocalFS)
    (tempFileList : List String) : List FileEntry :=
  tempFileList.filterMap (processLocalPath protocol md5 fs)

/-- A node of the input tree walked by `readDirRecursiveSync`. -/
inductive FSNode where
  | file (name : String)
  | dir (name : String) (children : List FSNode)
deriving Repr

/-- The check `file.indexOf('.') === 0`: the entry name begins with a dot. -/
def nameBeginsWithDot (file : String) : Bool :=
  match file.data with
  | '.' :: _ => true
  | _ => false

/-- The dotfile filter of `readDirRecursiveSync` for plain files (line 538):
`file.indexOf('.') !== 0 || file === '.htaccess' || file === '_redirects'`,
applied to the entry NAME at every depth. -/
def walkIncludesFileName (file : String) : Bool :=
  !(nameBeginsWithDot file) || file == ".htaccess" || file == "_redirects"

/-- The path pushed by the walk:
`normalizePath(path.join(dir.replace(inputDir, ''), file))` where the first
argument is the directory prefix relative to the input root (empty at the
root, `"/sub"` shape below it, so non-root entries keep a leading slash). -/
def joinRel (p name : String) : String :=
  if p == "" then name else p ++ "/" ++ name

/-- `Deployment.readDirRecursiveSync` (lines 524-545) over a model tree:
`.git` entries are skipped outright, directories are pushed (then recursed
into with the extended prefix), and files are pushed when
`walkIncludesFileName` accepts their name. -/
def readDirRecursiveSync (p : String) : List FSNode → List String
  | [] => []
  | .file name :: rest =>
      (if name == ".git" then [] else if walkIncludesFileName name then [joinRel p name] else [])
        ++ readDirRecursiveSync p rest
  | .dir name children :: rest =>
      (if name == ".git" then []
       else joinRel p name :: readDirRecursiveSync (p ++ "/" ++ name) children)
        ++ readDirRecursiveSync p rest

/-- Parse result of one of the JSON artefacts: either an inventory array or a
revision descriptor object `{revision: r}`. -/
inductive FileData where
  | inventory (files : List FileEntry)
  | descriptor (revision : String)
deriving DecidableEq, Repr

/-- JS truthiness of `content.revision`: a `revision` field exists and is a
non-empty string. -/
def contentRevision : FileData → Option String
  | .descriptor revision => if revision == "" then none else some revision
  | .inventory _ => none

/-- The three on-disk artefacts the sync logic reads and writes:
`files.publii.json` (in the input dir), `files-remote.json` and
`sync-revision.json` (in the config dir); `none` models a missing file. -/
structure SyncFiles where
  filesPublii : FileData
  filesRemote : Option FileData
  syncRevision : Option FileData

/-- `Deployment.replaceSyncInfoFiles` (lines 243-252): the current
`files.publii.json` bytes are copied to `files-remote.json`, and both
`files.publii.json` and `sync-revision.json` are overwritten with the
descriptor `{ "revision": "<syncRevision>" }` (which parses back to
`FileData.descriptor syncRevision`). -/
def replaceSyncInfoFiles (s : SyncFiles) (syncRevision : String) : SyncFiles :=
  { filesPublii := .descriptor syncRevision,
    filesRemote := some s.filesPublii,
    syncRevision := some (.descriptor syncRevision) }

/-- The write of `prepareLocalFilesList` (lines 189-193): the fresh local
inventory replaces `files.publii.json`. -/
def prepareWrite (s : SyncFiles) (inventory : List FileEntry) : SyncFiles :=
  { s with filesPublii := .inventory inventory }

/-- One session's listing-and-diff phase: `prepareLocalFilesList` writes the
fresh inventory `inventory`, then `compareFilesList remoteFileListExists`
(lines 259-350) reads it back as the local list and reads
`files-remote.json` as the remote list when the flag is set (a missing or
non-array remote file yields the empty remote list, lines 267-288). Returns
the state after the write together with the two detected stacks. -/
def sessionDiff (protocol : Protocol) (s : SyncFiles) (inventory : List FileEntry)
    (remoteFileListExists : Bool) :
    SyncFiles × List SimpleEntry × List SimpleEntry :=
  let s1 := prepareWrite s inventory
  let remoteFiles :=
    if remoteFileListExists then
      match s1.filesRemote with
      | some (.inventory files) => files
      | _ => []
    else []
  (s1, filesToRemove protocol inventory remoteFiles, filesToUpload protocol inventory remoteFiles)

/-- Inputs of `Deployment.checkLocalListWithRemoteList` (lines 201-238): the
parse attempt of the fetched manifest, the cached `sync-revision.json`
(missing, unparsable, or parsed) and the cached `files-remote.json` (missing
or present). -/
structure ResolveInputs where
  fetched : Except Unit FileData
  syncRevisionFile : Option (Except Unit FileData)
  filesRemote : Option FileData

/-- Observable outcome of one resolution branch: the boolean handed to
`compareFilesList`, whether it was obtained by hashing the cached remote
inventory (line 224), and the `files-remote.json` content written by the
legacy branch (line 233), if any. -/
structure ResolveStep where
  isExpectedCopy : Bool
  usedChecksum : Bool
  legacyWrite : Option FileData
deriving DecidableEq, Repr

/-- Body of the `try` block of `checkLocalListWithRemoteList` (lines
202-234), in source order: parse the fetched content, read and parse
`sync-revision.json` if it exists, then either compare revision tokens (or
fall back to the checksum of `files-remote.json`, whose read throws when the
file is missing) or treat the fetched content as a legacy remote list.
`Except.error` is a thrown JS exception. -/
def checkBody (md5 : FileData → String) (i : ResolveInputs) : Except Unit ResolveStep :=
  match i.fetched with
  | .error e => .error e
  | .ok content =>
    match i.syncRevisionFile with
    | some (.error e) => .error e
    | none | some (.ok _) =>
      let revisionID : Option String :=
        match i.syncRevisionFile with
        | some (.ok fd) => contentRevision fd
        | _ => none
      match contentRevision content with
      | some rev =>
        match i.filesRemote with
        | none => .error ()
        | some filesToCheck =>
          match revisionID with
          | some rid =>
              .ok { isExpectedCopy := rid == rev, usedChecksum := false, legacyWrite := none }
          | none =>
              .ok { isExpectedCopy := md5 filesToCheck == rev, usedChecksum := true,
                    legacyWrite := none }
      | none => .ok { isExpectedCopy := true, usedChecksum := false, legacyWrite := some content }

/-- `Deployment.checkLocalListWithRemoteList` (lines 201-238): the boolean
verdict passed to `compareFilesList`; the `catch` branch (line 236) passes
`false`. -/
def checkLocalListWithRemoteList (md5 : FileData → String) (i : ResolveInputs) : Bool :=
  match checkBody md5 i with
  | .ok step => step.isExpectedCopy
  | .error _ => false

/-! Generic lemmas about the `Array.prototype.sort` model. -/

theorem jsInsert_perm (cmp : α → α → Int) (x : α) (l : List α) :
    (jsInsert cmp x l).Perm (x :: l) := by
  induction l with
  | nil => simp [jsInsert]
  | cons y ys ih =>
      by_cases h : cmp x y < 0
      · simp [jsInsert, h]
      · simp only [jsInsert, if_neg h]
        exact ((ih.cons y).trans (List.Perm.swap x y ys))

theorem mem_jsInsert (cmp : α → α → Int) (x a : α) (l : List α) :
    a ∈ jsInsert cmp x l ↔ a = x ∨ a ∈ l := by
  have h := (jsInsert_perm cmp x l).mem_iff (a := a)
  simpa using h

theorem jsSort_go_perm (cmp : α → α → Int) :
    ∀ (l acc : List α), (l.foldl (fun sorted x => jsInsert cmp x sorted) acc).Perm (acc ++ l) := by
  intro l
  induction l with
  | nil => simp
  | cons x xs ih =>
      intro acc
      simp only [List.foldl_cons]
      have h0 := ih (jsInsert cmp x acc)
      have h1 : ((jsInsert cmp x acc) ++ xs).Perm ((x :: acc) ++ xs) :=
        (jsInsert_perm cmp x acc).append_right xs
      have h2 : ((x :: acc) ++ xs).Perm (acc ++ x :: xs) := by
        simpa using (@List.perm_middle _ x acc xs).symm
      exact (h0.trans h1).trans h2

theorem jsSort_perm (cmp : α → α → Int) (l : List α) : (jsSort cmp l).Perm l := by
  simpa using jsSort_go_perm cmp l []

theorem jsInsert_cons_of_lt (cmp : α → α → Int) (x : α) {l : List α}
    (h : ∀ y ∈ l, cmp x y < 0) : jsInsert cmp x l = x :: l := by
  cases l with
  | nil => rfl
  | cons y ys => simp [jsInsert, h y (by simp)]

theorem jsInsert_append_left (cmp : α → α → Int) (x : α) {P : List α} (Q : List α)
    (h : ∀ z ∈ P, ¬ cmp x z < 0) : jsInsert cmp x (P ++ Q) = P ++ jsInsert cmp x Q := by
  induction P with
  | nil => rfl
  | cons z zs ih =>
      simp only [List.cons_append, jsInsert, if_neg (h z (by simp)), List.append_eq]
      rw [ih (fun w hw => h w (by simp [hw]))]

theorem jsInsert_last (cmp : α → α → Int) (x : α) {l : List α}
    (h : ∀ z ∈ l, ¬ cmp x z < 0) : jsInsert cmp x l = l ++ [x] := by
  have := jsInsert_append_left cmp x (P := l) [] h
  simpa using this

/-! Characterization of the removal stack order. -/

theorem removeCompare_of_dir {a : SimpleEntry} (h : a.type = .directory) (b : SimpleEntry) :
    removeCompare a b < 0 := by
  simp [removeCompare, h]

theorem removeCompare_of_file {a : SimpleEntry} (h : a.type = .file) (b : SimpleEntry) :
    ¬ removeCompare a b < 0 := by
  by_cases hb : b.type = .directory <;> simp [removeCompare, h, hb]

theorem sortFilesToRemove_go :
    ∀ (l acc : List SimpleEntry),
      l.foldl (fun sorted x => jsInsert removeCompare x sorted) acc =
        (l.filter (fun e => e.type == .directory)).reverse ++ acc ++
          l.filter (fun e => e.type == .file) := by
  intro l
  induction l with
  | nil => intro acc; simp
  | cons x xs ih =>
      intro acc
      cases hx : x.type with
      | directory =>
          have hstep : jsInsert removeCompare x acc = x :: acc :=
            jsInsert_cons_of_lt _ _ (fun y _ => removeCompare_of_dir hx y)
          simp only [List.foldl_cons, hstep, ih (x :: acc), List.filter_cons, hx]
          simp
      | file =>
          have hstep : jsInsert removeCompare x acc = acc ++ [x] :=
            jsInsert_last _ _ (fun y _ => removeCompare_of_file hx y)
          simp only [List.foldl_cons, hstep, ih (acc ++ [x]), List.filter_cons, hx]
          simp

theorem sortFilesToRemove_eq (l : List SimpleEntry) :
    sortFilesToRemove l =
      (l.filter (fun e => e.type == .directory)).reverse ++
        l.filter (fun e => e.type == .file) := by
  have h := sortFilesToRemove_go l []
  simpa [sortFilesToRemove, jsSort] using h

theorem removalExecutionOrder_eq (l : List SimpleEntry) :
    removalExecutionOrder l =
      (l.filter (fun e => e.type == .file)).reverse ++
        l.filter (fun e => e.type == .directory) := by
  simp [removalExecutionOrder, sortFilesToRemove_eq]

/-! Characterization of the upload stack order. -/

theorem uploadCompareBinary_of_dir (isBin : String → Bool) {a : SimpleEntry}
    (h : a.type = .directory) (b : SimpleEntry) : ¬ uploadCompareBinary isBin a b < 0 := by
  simp [uploadCompareBinary, h]

theorem uploadCompareBinary_of_bin (isBin : String → Bool) {a : SimpleEntry}
    (ha : a.type = .file) (hb : isBin a.path = true) (b : SimpleEntry) :
    uploadCompareBinary isBin a b < 0 := by
  by_cases h : b.type = .directory <;> simp [uploadCompareBinary, ha, hb, h]

theorem uploadCompareBinary_nonbin_lt (isBin : String → Bool) {a : SimpleEntry}
    (ha : a.type = .file) (hb : isBin a.path = false) (z : SimpleEntry) :
    uploadCompareBinary isBin a z < 0 ↔ z.type = .directory := by
  by_cases h : z.type = .directory
  · simp [uploadCompareBinary, ha, hb, h]
  · by_cases h2 : isBin z.path = true <;> simp [uploadCompareBinary, ha, hb, h, h2]

theorem sortUploadBinary_go (isBin : String → Bool) :
    ∀ (l B N D : List SimpleEntry),
      (∀ z ∈ B, z.type = .file) → (∀ z ∈ N, z.type = .file) →
      (∀ z ∈ D, z.type = .directory) →
      l.foldl (fun sorted x => jsInsert (uploadCompareBinary isBin) x sorted) (B ++ N ++ D) =
        ((l.filter (fun e => e.type == .file && isBin e.path)).reverse ++ B) ++
          (N ++ l.filter (fun e => e.type == .file && !isBin e.path)) ++
          (D ++ l.filter (fun e => e.type == .directory)) := by
  intro l
  induction l with
  | nil => intro B N D _ _ _; simp
  | cons x xs ih =>
      intro B N D hB hN hD
      simp only [List.foldl_cons]
      cases hx : x.type with
      | directory =>
          have hstep : jsInsert (uploadCompareBinary isBin) x (B ++ N ++ D) =
              B ++ N ++ (D ++ [x]) := by
            rw [jsInsert_last _ _ (fun z _ => uploadCompareBinary_of_dir isBin hx z)]
            simp
          rw [hstep, ih B N (D ++ [x]) hB hN (by
            intro z hz
            rcases List.mem_append.mp hz with h | h
            · exact hD z h
            · simp only [List.mem_singleton] at h; simpa [h] using hx)]
          simp [List.filter_cons, hx]
      | file =>
          cases hbin : isBin x.path with
          | true =>
              have hstep : jsInsert (uploadCompareBinary isBin) x (B ++ N ++ D) =
                  (x :: B) ++ N ++ D :=
                jsInsert_cons_of_lt _ _ (fun z _ => uploadCompareBinary_of_bin isBin hx hbin z)
              rw [hstep, ih (x :: B) N D (by
                intro z hz
                rcases List.mem_cons.mp hz with h | h
                · simpa [h] using hx
                · exact hB z h) hN hD]
              simp [List.filter_cons, hx, hbin]
          | false =>
              have hpass : ∀ z ∈ B ++ N, ¬ uploadCompareBinary isBin x z < 0 := by
                intro z hz
                have hzf : z.type = .file := by
                  rcases List.mem_append.mp hz with h | h
                  · exact hB z h
                  · exact hN z h
                rw [uploadCompareBinary_nonbin_lt isBin hx hbin z]
                simp [hzf]
              have hstop : jsInsert (uploadCompareBinary isBin) x D = x :: D := by
                cases D with
                | nil => rfl
                | cons d ds =>
                    apply jsInsert_cons_of_lt
                    intro y hy
                    rw [uploadCompareBinary_nonbin_lt isBin hx hbin y]
                    exact hD y hy
              have hstep : jsInsert (uploadCompareBinary isBin) x (B ++ N ++ D) =
                  B ++ (N ++ [x]) ++ D := by
                rw [jsInsert_append_left _ _ _ hpass, hstop]
                simp
              rw [hstep, ih B (N ++ [x]) D hB (by
                intro z hz
                rcases List.mem_append.mp hz with h | h
                · exact hN z h
                · simp only [List.mem_singleton] at h; simpa [h] using hx) hD]
              simp [List.filter_cons, hx, hbin]

theorem sortUploadBinary_eq (isBin : String → Bool) (l : List SimpleEntry) :
    jsSort (uploadCompareBinary isBin) l =
      (l.filter (fun e => e.type == .file && isBin e.path)).reverse ++
        l.filter (fun e => e.type == .file && !isBin e.path) ++
        l.filter (fun e => e.type == .directory) := by
  have h := sortUploadBinary_go isBin l [] [] [] (by simp) (by simp) (by simp)
  simpa [jsSort] using h

theorem uploadCompareDepth_dir_file {a z : SimpleEntry} (ha : a.type = .directory)
    (hz : z.type = .file) : ¬ uploadCompareDepth a z < 0 := by
  simp [uploadCompareDepth, ha, hz]

theorem uploadCompareDepth_file {a : SimpleEntry} (ha : a.type = .file) (z : SimpleEntry) :
    uploadCompareDepth a z < 0 ↔ z.type = .directory := by
  by_cases hz : z.type = .directory <;> simp [uploadCompareDepth, ha, hz]

theorem uploadCompareDepth_dir_dir {a z : SimpleEntry} (ha : a.type = .directory)
    (hz : z.type = .directory) :
    uploadCompareDepth a z < 0 ↔ z.path.length < a.path.length := by
  by_cases h : a.path.length ≤ z.path.length
  · simp [uploadCompareDepth, ha, hz, h]
  · simp [uploadCompareDepth, ha, hz, h]
    omega

theorem sortUploadDepth_files_go :
    ∀ (fl acc : List SimpleEntry), (∀ z ∈ acc, z.type = .file) → (∀ z ∈ fl, z.type = .file) →
      fl.foldl (fun sorted x => jsInsert uploadCompareDepth x sorted) acc = acc ++ fl := by
  intro fl
  induction fl with
  | nil => intro acc _ _; simp
  | cons x xs ih =>
      intro acc hacc hfl
      have hx : x.type = .file := hfl x (by simp)
      simp only [List.foldl_cons]
      have hstep : jsInsert uploadCompareDepth x acc = acc ++ [x] := by
        apply jsInsert_last
        intro z hz
        rw [uploadCompareDepth_file hx z]
        simp [hacc z hz]
      rw [hstep, ih (acc ++ [x]) (by
        intro z hz
        rcases List.mem_append.mp hz with h | h
        · exact hacc z h
        · simp only [List.mem_singleton] at h; simpa [h] using hx)
        (fun z hz => hfl z (by simp [hz]))]
      simp

theorem sortUploadDepth_dirs_go :
    ∀ (dl F D : List SimpleEntry), (∀ z ∈ F, z.type = .file) →
      (∀ z ∈ dl, z.type = .directory) →
      dl.foldl (fun sorted x => jsInsert uploadCompareDepth x sorted) (F ++ D) =
        F ++ dl.foldl (fun sorted x => jsInsert uploadCompareDepth x sorted) D := by
  intro dl
  induction dl with
  | nil => intro F D _ _; simp
  | cons x xs ih =>
      intro F D hF hdl
      have hx : x.type = .directory := hdl x (by simp)
      simp only [List.foldl_cons]
      rw [jsInsert_append_left _ _ _ (fun z hz => uploadCompareDepth_dir_file hx (hF z hz)),
        ih F (jsInsert uploadCompareDepth x D) hF (fun z hz => hdl z (by simp [hz]))]

theorem sortUploadDepth_eq (fl dl : List SimpleEntry) (hF : ∀ z ∈ fl, z.type = .file)
    (hD : ∀ z ∈ dl, z.type = .directory) :
    jsSort uploadCompareDepth (fl ++ dl) = fl ++ jsSort uploadCompareDepth dl := by
  unfold jsSort
  rw [List.foldl_append, sortUploadDepth_files_go fl [] (by simp) hF]
  simpa using sortUploadDepth_dirs_go dl fl [] hF hD

theorem jsInsert_depth_pairwise {x : SimpleEntry} {D : List SimpleEntry}
    (hx : x.type = .directory) (hD : ∀ z ∈ D, z.type = .directory)
    (hP : D.Pairwise (fun a b => b.path.length ≤ a.path.length)) :
    (jsInsert uploadCompareDepth x D).Pairwise (fun a b => b.path.length ≤ a.path.length) := by
  induction D with
  | nil => simp [jsInsert]
  | cons y ys ih =>
      have hy : y.type = .directory := hD y (by simp)
      rw [List.pairwise_cons] at hP
      by_cases h : uploadCompareDepth x y < 0
      · have hlt : y.path.length < x.path.length := (uploadCompareDepth_dir_dir hx hy).mp h
        simp only [jsInsert, if_pos h]
        refine List.Pairwise.cons ?_ (List.Pairwise.cons hP.1 hP.2)
        intro b hb
        rcases List.mem_cons.mp hb with rfl | hb
        · omega
        · have := hP.1 b hb
          omega
      · have hle : x.path.length ≤ y.path.length := by
          have := (uploadCompareDepth_dir_dir hx hy).not.mp h
          omega
        simp only [jsInsert, if_neg h]
        refine List.Pairwise.cons ?_ (ih (fun z hz => hD z (by simp [hz])) hP.2)
        intro b hb
        rcases (mem_jsInsert _ _ _ _).mp hb with rfl | hb
        · omega
        · exact hP.1 b hb

theorem sortUploadDepth_dirs_pairwise :
    ∀ (dl D : List SimpleEntry), (∀ z ∈ dl, z.type = .directory) →
      (∀ z ∈ D, z.type = .directory) →
      D.Pairwise (fun a b => b.path.length ≤ a.path.length) →
      (dl.foldl (fun sorted x => jsInsert uploadCompareDepth x sorted) D).Pairwise
        (fun a b => b.path.length ≤ a.path.length) := by
  intro dl
  induction dl with
  | nil => intro D _ _ hP; simpa
  | cons x xs ih =>
      intro D hdl hD hP
      have hx : x.type = .directory := hdl x (by simp)
      simp only [List.foldl_cons]
      refine ih (jsInsert uploadCompareDepth x D) (fun z hz => hdl z (by simp [hz])) ?_
        (jsInsert_depth_pairwise hx hD hP)
      intro z hz
      rcases (mem_jsInsert _ _ _ _).mp hz with h | h
      · simpa [h] using hx
      · exact hD z h

theorem uploadSorted_eq (isBin : String → Bool) (l : List SimpleEntry) :
    sortFilesToUpload isBin l =
      (l.filter (fun e => e.type == .file && isBin e.path)).reverse ++
        l.filter (fun e => e.type == .file && !isBin e.path) ++
        jsSort uploadCompareDepth (l.filter (fun e => e.type == .directory)) := by
  unfold sortFilesToUpload
  rw [sortUploadBinary_eq]
  have hfl : ∀ z ∈ (l.filter (fun e => e.type == .file && isBin e.path)).reverse ++
      l.filter (fun e => e.type == .file && !isBin e.path), z.type = .file := by
    intro z hz
    rcases List.mem_append.mp hz with h | h
    · have := List.mem_filter.mp (List.mem_reverse.mp h)
      have h2 := this.2
      simp only [Bool.and_eq_true, beq_iff_eq] at h2
      exact h2.1
    · have := List.mem_filter.mp h
      have h2 := this.2
      simp only [Bool.and_eq_true, beq_iff_eq] at h2
      exact h2.1
  have hdl : ∀ z ∈ l.filter (fun e => e.type == .directory), z.type = .directory := by
    intro z hz
    have := List.mem_filter.mp hz
    simpa using this.2
  rw [sortUploadDepth_eq ((l.filter (fun e => e.type == .file && isBin e.path)).reverse ++
    l.filter (fun e => e.type == .file && !isBin e.path))
    (l.filter (fun e => e.type == .directory)) hfl hdl]

theorem uploadExecutionOrder_eq (isBin : String → Bool) (l : List SimpleEntry) :
    uploadExecutionOrder isBin l =
      (jsSort uploadCompareDepth (l.filter (fun e => e.type == .directory))).reverse ++
        (l.filter (fun e => e.type == .file && !isBin e.path)).reverse ++
        l.filter (fun e => e.type == .file && isBin e.path) := by
  unfold uploadExecutionOrder
  rw [uploadSorted_eq]
  simp [List.reverse_append]

/-! Helper lemmas about the diff. -/

theorem fileFounded_iff (localFiles : List FileEntry) (remoteFile : FileEntry) :
    fileFounded localFiles remoteFile = true ↔
      ∃ l ∈ localFiles, l.path = remoteFile.path := by
  simp [fileFounded, List.any_eq_true]

theorem fileShouldBeUploaded_iff (remoteFiles : List FileEntry) (localFile : FileEntry) :
    fileShouldBeUploaded remoteFiles localFile = true ↔
      ¬ ∃ r ∈ remoteFiles, localFile.path = r.path ∧ localFile.md5 = r.md5 := by
  simp [fileShouldBeUploaded, List.any_eq_true]

theorem filesToRemove_self (protocol : Protocol) (l : List FileEntry) :
    filesToRemove protocol l l = [] := by
  unfold filesToRemove
  have h : l.filter (fun remoteFile =>
      !fileFounded l remoteFile &&
      !(protocol.noDirectoryEntries && remoteFile.type == .directory)) = [] := by
    rw [List.filter_eq_nil_iff]
    intro r hr
    have : fileFounded l r = true := (fileFounded_iff l r).mpr ⟨r, hr, rfl⟩
    simp [this]
  rw [h]
  rfl

theorem filesToUpload_self (protocol : Protocol) (l : List FileEntry) :
    filesToUpload protocol l l = [] := by
  unfold filesToUpload
  have h : l.filter (fun localFile =>
      fileShouldBeUploaded l localFile &&
      !(protocol.noDirectoryEntries && localFile.type == .directory)) = [] := by
    rw [List.filter_eq_nil_iff]
    intro x hx
    have : fileShouldBeUploaded l x = false := by
      have := (fileShouldBeUploaded_iff l x).not
      rcases hb : fileShouldBeUploaded l x with _ | _
      · rfl
      · exact absurd ⟨x, hx, rfl, rfl⟩ ((fileShouldBeUploaded_iff l x).mp hb)
    simp [this]
  rw [h]
  rfl

theorem mem_filesToRemove_file {protocol : Protocol}
    (h : protocol.noDirectoryEntries = true) (localFiles remoteFiles : List FileEntry) :
    ∀ e ∈ filesToRemove protocol localFiles remoteFiles, e.type = .file := by
  intro e he
  unfold filesToRemove at he
  rcases List.mem_map.mp he with ⟨r, hr, hre⟩
  have hcond := (List.mem_filter.mp hr).2
  simp only [h, Bool.true_and, Bool.and_eq_true, Bool.not_eq_true'] at hcond
  have : r.type ≠ .directory := by simpa using hcond.2
  have htype : r.type = .file := by cases hrt : r.type <;> simp_all
  rw [← hre]
  exact htype

theorem mem_filesToUpload_file {protocol : Protocol}
    (h : protocol.noDirectoryEntries = true) (localFiles remoteFiles : List FileEntry) :
    ∀ e ∈ filesToUpload protocol localFiles remoteFiles, e.type = .file := by
  intro e he
  unfold filesToUpload at he
  rcases List.mem_map.mp he with ⟨l, hl, hle⟩
  have hcond := (List.mem_filter.mp hl).2
  simp only [h, Bool.true_and, Bool.and_eq_true, Bool.not_eq_true'] at hcond
  have : l.type ≠ .directory := by simpa using hcond.2
  have htype : l.type = .file := by cases hlt : l.type <;> simp_all
  rw [← hle]
  exact htype

/-- Local inventory of the diff example of the specification:
`[{a.txt,f,"h1"}, {img/,d}]`. -/
def diffLocalExample : List FileEntry :=
  [⟨"a.txt", .file, some "h1"⟩, ⟨"img/", .directory, none⟩]

/-- Remote inventory of the diff example of the specification:
`[{a.txt,f,"h0"}, {old.txt,f,"h2"}]`. -/
def diffRemoteExample : List FileEntry :=
  [⟨"a.txt", .file, some "h0"⟩, ⟨"old.txt", .file, some "h2"⟩]

/-- C1: on the concrete example the diff yields `toRemove = [{old.txt,f}]` and
`toUpload = [{a.txt,f}, {img/,d}]`; in general, for a directory-capable
transport and a remote inventory with unique paths, the upload set consists
exactly of the local entries with no remote counterpart at the same path or
whose remote counterpart carries a different fingerprint; and a local
directory entry whose path is already present remotely as a directory entry
(directories carrying no fingerprint) is never selected for upload. -/
theorem C1_diff_correctness :
    (filesToRemove .ftp diffLocalExample diffRemoteExample = [⟨"old.txt", .file⟩] ∧
     filesToUpload .ftp diffLocalExample diffRemoteExample =
       [⟨"a.txt", .file⟩, ⟨"img/", .directory⟩]) ∧
    (∀ (protocol : Protocol) (localFiles remoteFiles : List FileEntry) (e : SimpleEntry),
      protocol.noDirectoryEntries = false →
      remoteFiles.Pairwise (fun a b => a.path ≠ b.path) →
      (e ∈ filesToUpload protocol localFiles remoteFiles ↔
        ∃ l ∈ localFiles, l.path = e.path ∧ l.type = e.type ∧
          ((∀ r ∈ remoteFiles, r.path ≠ l.path) ∨
           ∃ r ∈ remoteFiles, r.path = l.path ∧ r.md5 ≠ l.md5))) ∧
    (∀ (remoteFiles : List FileEntry) (l : FileEntry),
      l.type = .directory → l.md5 = none →
      (∀ r ∈ remoteFiles, r.type = .directory → r.md5 = none) →
      (∃ r ∈ remoteFiles, r.path = l.path ∧ r.type = .directory) →
      fileShouldBeUploaded remoteFiles l = false) := by
  refine ⟨⟨by decide, by decide⟩, ?_, ?_⟩
  · intro protocol localFiles remoteFiles e hp huniq
    unfold filesToUpload
    simp only [List.mem_map, List.mem_filter, hp, Bool.false_and, Bool.not_false,
      Bool.and_true]
    constructor
    · rintro ⟨l, ⟨hl, hup⟩, hle⟩
      refine ⟨l, hl, ?_, ?_, ?_⟩
      · rw [← hle]
      · rw [← hle]
      · have hno := (fileShouldBeUploaded_iff remoteFiles l).mp hup
        by_cases hex : ∃ r ∈ remoteFiles, r.path = l.path
        · rcases hex with ⟨r, hr, hrp⟩
          refine Or.inr ⟨r, hr, hrp, ?_⟩
          intro hmd5
          exact hno ⟨r, hr, hrp.symm, hmd5.symm⟩
        · push_neg at hex
          exact Or.inl hex
    · rintro ⟨l, hl, hpath, htype, hdisj⟩
      refine ⟨l, ⟨hl, ?_⟩, ?_⟩
      · rw [fileShouldBeUploaded_iff]
        rintro ⟨r, hr, hrp, hrm⟩
        rcases hdisj with hnone | ⟨r2, hr2, hp2, hm2⟩
        · exact hnone r hr hrp.symm
        · have heqr : r = r2 := by
            by_contra hne
            exact (huniq.forall (fun a b hab => hab.symm) hr hr2 hne) (hrp.symm.trans hp2.symm)
          rw [heqr] at hrm
          exact hm2 (hrm.symm)
      · cases e
        simp only [SimpleEntry.mk.injEq]
        exact ⟨hpath, htype⟩
  · intro remoteFiles l hdir hmd5 hwf hex
    rcases hex with ⟨r, hr, hrp, hrt⟩
    have hmatch : l.path = r.path ∧ l.md5 = r.md5 := by
      refine ⟨hrp.symm, ?_⟩
      rw [hmd5, hwf r hr hrt]
    have hany : remoteFiles.any (fun remoteFile =>
        l.path == remoteFile.path && l.md5 == remoteFile.md5) = true := by
      rw [List.any_eq_true]
      exact ⟨r, hr, by simp [hmatch.1, hmatch.2]⟩
    simp [fileShouldBeUploaded, hany]

/-- C1 witness: the general parts of `C1_diff_correctness` instantiated on the
concrete example inventories. -/
theorem C1_diff_correctness_witness :
    ((⟨"a.txt", .file⟩ : SimpleEntry) ∈ filesToUpload .ftp diffLocalExample diffRemoteExample ↔
      ∃ l ∈ diffLocalExample, l.path = "a.txt" ∧ l.type = .file ∧
        ((∀ r ∈ diffRemoteExample, r.path ≠ l.path) ∨
         ∃ r ∈ diffRemoteExample, r.path = l.path ∧ r.md5 ≠ l.md5)) ∧
    fileShouldBeUploaded [⟨"img/", .directory, none⟩] ⟨"img/", .directory, none⟩ = false := by
  constructor
  · exact C1_diff_correctness.2.1 .ftp diffLocalExample diffRemoteExample ⟨"a.txt", .file⟩
      (by decide) (by decide)
  · exact C1_diff_correctness.2.2 [⟨"img/", .directory, none⟩] ⟨"img/", .directory, none⟩
      rfl rfl (by decide) ⟨⟨"img/", .directory, none⟩, by simp, rfl, rfl⟩

/-- C3: a second session on an unchanged local tree, after a successful first
session whose finalization relocated `files.publii.json` to
`files-remote.json`, diffs the inventory against itself and schedules no
removal and no upload. -/
theorem C3_idempotence (protocol : Protocol) (s0 : SyncFiles)
    (inventory : List FileEntry) (syncRevision : String) :
    (sessionDiff protocol
        (replaceSyncInfoFiles (sessionDiff protocol s0 inventory true).1 syncRevision)
        inventory true).2 =
      (([] : List SimpleEntry), ([] : List SimpleEntry)) := by
  simp only [sessionDiff, prepareWrite, replaceSyncInfoFiles]
  simp [filesToRemove_self, filesToUpload_self]

/-- C7: the session's total operation count is the number of File entries of
the two diff stacks plus one final publish operation for the transports
without directory semantics (s3 counted that way directly; google-cloud and
gitlab-pages because their stacks contain no Directory entry), and the
number of all entries of both stacks plus one for every other transport. -/
theorem C7_operations_counter (protocol : Protocol) (localFiles remoteFiles : List FileEntry) :
    ((protocol = .s3 ∨ protocol = .googleCloud ∨ protocol = .gitlabPages) →
      operationsCounter protocol (filesToRemove protocol localFiles remoteFiles)
          (filesToUpload protocol localFiles remoteFiles) =
        ((filesToRemove protocol localFiles remoteFiles).filter
            (fun e => e.type == .file)).length +
          ((filesToUpload protocol localFiles remoteFiles).filter
            (fun e => e.type == .file)).length + 1) ∧
    ((protocol ≠ .s3 ∧ protocol ≠ .googleCloud ∧ protocol ≠ .gitlabPages) →
      operationsCounter protocol (filesToRemove protocol localFiles remoteFiles)
          (filesToUpload protocol localFiles remoteFiles) =
        (filesToRemove protocol localFiles remoteFiles).length +
          (filesToUpload protocol localFiles remoteFiles).length + 1) := by
  constructor
  · rintro (rfl | rfl | rfl)
    · rfl
    · have h1 : (filesToRemove .googleCloud localFiles remoteFiles).filter
          (fun e => e.type == .file) = filesToRemove .googleCloud localFiles remoteFiles :=
        List.filter_eq_self.mpr (fun e he => by
          simp [@mem_filesToRemove_file Protocol.googleCloud rfl localFiles remoteFiles e he])
      have h2 : (filesToUpload .googleCloud localFiles remoteFiles).filter
          (fun e => e.type == .file) = filesToUpload .googleCloud localFiles remoteFiles :=
        List.filter_eq_self.mpr (fun e he => by
          simp [@mem_filesToUpload_file Protocol.googleCloud rfl localFiles remoteFiles e he])
      rw [operationsCounter, if_neg (by decide), h1, h2]
    · have h1 : (filesToRemove .gitlabPages localFiles remoteFiles).filter
          (fun e => e.type == .file) = filesToRemove .gitlabPages localFiles remoteFiles :=
        List.filter_eq_self.mpr (fun e he => by
          simp [@mem_filesToRemove_file Protocol.gitlabPages rfl localFiles remoteFiles e he])
      have h2 : (filesToUpload .gitlabPages localFiles remoteFiles).filter
          (fun e => e.type == .file) = filesToUpload .gitlabPages localFiles remoteFiles :=
        List.filter_eq_self.mpr (fun e he => by
          simp [@mem_filesToUpload_file Protocol.gitlabPages rfl localFiles remoteFiles e he])
      rw [operationsCounter, if_neg (by decide), h1, h2]
  · intro h
    rw [operationsCounter, if_neg (by simp [h.1])]

/-- C7 witness: for the s3 protocol, a one-file-one-directory upload set is
counted as one file operation plus the final publish operation. -/
theorem C7_operations_counter_witness :
    operationsCounter .s3
        (filesToRemove .s3 [⟨"a", .file, some "h"⟩, ⟨"d", .directory, none⟩] [])
        (filesToUpload .s3 [⟨"a", .file, some "h"⟩, ⟨"d", .directory, none⟩] []) =
      ((filesToRemove .s3 [⟨"a", .file, some "h"⟩, ⟨"d", .directory, none⟩] []).filter
          (fun e => e.type == .file)).length +
        ((filesToUpload .s3 [⟨"a", .file, some "h"⟩, ⟨"d", .directory, none⟩] []).filter
          (fun e => e.type == .file)).length + 1 :=
  (C7_operations_counter .s3 [⟨"a", .file, some "h"⟩, ⟨"d", .directory, none⟩] []).1
    (Or.inl rfl)

/-- C9: a remote entry whose path also occurs locally is never put into the
removal set, whatever the two entry kinds are; replacing a remote directory
by a local file at the same path (or vice versa) uploads the new entry and
removes nothing; and the diff matching never consults entry kinds: retyping
every local entry leaves `fileFounded` unchanged and retyping every remote
entry leaves `fileShouldBeUploaded` unchanged. -/
theorem C9_kind_changes_no_removal :
    (∀ (protocol : Protocol) (localFiles remoteFiles : List FileEntry) (r : FileEntry),
      r ∈ remoteFiles → (∃ l ∈ localFiles, l.path = r.path) →
      ({ path := r.path, type := r.type } : SimpleEntry) ∉
        filesToRemove protocol localFiles remoteFiles) ∧
    (filesToRemove .ftp [⟨"q", .file, some "h"⟩] [⟨"q", .directory, none⟩] = [] ∧
     filesToUpload .ftp [⟨"q", .file, some "h"⟩] [⟨"q", .directory, none⟩] = [⟨"q", .file⟩] ∧
     filesToRemove .ftp [⟨"q", .directory, none⟩] [⟨"q", .file, some "h"⟩] = [] ∧
     filesToUpload .ftp [⟨"q", .directory, none⟩] [⟨"q", .file, some "h"⟩] =
       [⟨"q", .directory⟩]) ∧
    (∀ (g : FileEntry → FileType) (localFiles : List FileEntry) (r : FileEntry),
      fileFounded (localFiles.map (fun l => { l with type := g l })) r =
        fileFounded localFiles r) ∧
    (∀ (g : FileEntry → FileType) (remoteFiles : List FileEntry) (l : FileEntry),
      fileShouldBeUploaded (remoteFiles.map (fun x => { x with type := g x })) l =
        fileShouldBeUploaded remoteFiles l) := by
  refine ⟨?_, ⟨by decide, by decide, by decide, by decide⟩, ?_, ?_⟩
  · intro protocol localFiles remoteFiles r hr hex hmem
    unfold filesToRemove at hmem
    rcases List.mem_map.mp hmem with ⟨r2, hr2, hre⟩
    have hcond := (List.mem_filter.mp hr2).2
    simp only [Bool.and_eq_true, Bool.not_eq_true'] at hcond
    have hnf : fileFounded localFiles r2 = false := hcond.1
    have hpath : r2.path = r.path := by
      have := congrArg SimpleEntry.path hre
      simpa using this
    rcases hex with ⟨l, hl, hlp⟩
    have : fileFounded localFiles r2 = true :=
      (fileFounded_iff localFiles r2).mpr ⟨l, hl, by rw [hlp, ← hpath]⟩
    rw [this] at hnf
    cases hnf
  · intro g localFiles r
    simp only [fileFounded, List.any_map]
    rfl
  · intro g remoteFiles l
    simp only [fileShouldBeUploaded, List.any_map]
    rfl

/-- C9 witness: the no-removal part of `C9_kind_changes_no_removal`
instantiated on the directory-replaced-by-file example. -/
theorem C9_kind_changes_no_removal_witness :
    ({ path := "q", type := .directory } : SimpleEntry) ∉
      filesToRemove .ftp [⟨"q", .file, some "h"⟩] [⟨"q", .directory, none⟩] :=
  C9_kind_changes_no_removal.1 .ftp [⟨"q", .file, some "h"⟩] [⟨"q", .directory, none⟩]
    ⟨"q", .directory, none⟩ (by simp) ⟨⟨"q", .file, some "h"⟩, by simp, rfl⟩

/-! Pairwise properties of the upload execution order. -/

theorem jsSortDirs_pairwise (dl : List SimpleEntry) (h : ∀ z ∈ dl, z.type = .directory) :
    (jsSort uploadCompareDepth dl).Pairwise (fun a b => b.path.length ≤ a.path.length) := by
  unfold jsSort
  exact sortUploadDepth_dirs_pairwise dl [] h (by simp) (by simp)

theorem pairwise_append3 {A B C : List α} {R : α → α → Prop}
    (hA : A.Pairwise R) (hB : B.Pairwise R) (hC : C.Pairwise R)
    (hAB : ∀ a ∈ A, ∀ b ∈ B, R a b) (hAC : ∀ a ∈ A, ∀ c ∈ C, R a c)
    (hBC : ∀ b ∈ B, ∀ c ∈ C, R b c) : (A ++ B ++ C).Pairwise R := by
  rw [List.pairwise_append, List.pairwise_append]
  refine ⟨⟨hA, hB, hAB⟩, hC, ?_⟩
  intro a ha c hc
  rcases List.mem_append.mp ha with h | h
  · exact hAC a h c hc
  · exact hBC a h c hc

theorem mem_uploadDirsBlock (l : List SimpleEntry) :
    ∀ z ∈ (jsSort uploadCompareDepth (l.filter (fun e => e.type == .directory))).reverse,
      z.type = .directory := by
  intro z hz
  have h1 : z ∈ jsSort uploadCompareDepth (l.filter (fun e => e.type == .directory)) :=
    List.mem_reverse.mp hz
  have h2 : z ∈ l.filter (fun e => e.type == .directory) :=
    (jsSort_perm _ _).mem_iff.mp h1
  have := (List.mem_filter.mp h2).2
  simpa using this

theorem mem_uploadNonbinBlock (isBin : String → Bool) (l : List SimpleEntry) :
    ∀ z ∈ (l.filter (fun e => e.type == .file && !isBin e.path)).reverse,
      z.type = .file ∧ isBin z.path = false := by
  intro z hz
  have h2 := (List.mem_filter.mp (List.mem_reverse.mp hz)).2
  simp only [Bool.and_eq_true, beq_iff_eq, Bool.not_eq_true'] at h2
  exact h2

theorem mem_uploadBinBlock (isBin : String → Bool) (l : List SimpleEntry) :
    ∀ z ∈ l.filter (fun e => e.type == .file && isBin e.path),
      z.type = .file ∧ isBin z.path = true := by
  intro z hz
  have h2 := (List.mem_filter.mp hz).2
  simp only [Bool.and_eq_true, beq_iff_eq] at h2
  exact h2

theorem uploadExecutionOrder_perm (isBin : String → Bool) (l : List SimpleEntry) :
    (uploadExecutionOrder isBin l).Perm l := by
  unfold uploadExecutionOrder sortFilesToUpload
  exact (List.reverse_perm _).trans ((jsSort_perm _ _).trans (jsSort_perm _ _))

theorem uploadExecutionOrder_dirs_first (isBin : String → Bool) (l : List SimpleEntry) :
    (uploadExecutionOrder isBin l).Pairwise (fun x y => x.type = .file → y.type = .file) := by
  rw [uploadExecutionOrder_eq]
  have hA := mem_uploadDirsBlock l
  have hN := mem_uploadNonbinBlock isBin l
  have hB := mem_uploadBinBlock isBin l
  refine pairwise_append3 ?_ ?_ ?_ ?_ ?_ ?_
  · exact List.pairwise_of_forall_mem_list (fun a ha b hb h =>
      absurd ((hA a ha).symm.trans h) (by decide))
  · exact List.pairwise_of_forall_mem_list (fun a ha b hb _ => (hN b hb).1)
  · exact List.pairwise_of_forall_mem_list (fun a ha b hb _ => (hB b hb).1)
  · exact fun a ha b hb _ => (hN b hb).1
  · exact fun a ha c hc _ => (hB c hc).1
  · exact fun b hb c hc _ => (hB c hc).1

theorem uploadExecutionOrder_dirs_by_length (isBin : String → Bool) (l : List SimpleEntry) :
    (uploadExecutionOrder isBin l).Pairwise
      (fun x y => x.type = .directory → y.type = .directory →
        x.path.length ≤ y.path.length) := by
  rw [uploadExecutionOrder_eq]
  have hA := mem_uploadDirsBlock l
  have hN := mem_uploadNonbinBlock isBin l
  have hB := mem_uploadBinBlock isBin l
  refine pairwise_append3 ?_ ?_ ?_ ?_ ?_ ?_
  · rw [List.pairwise_reverse]
    refine (jsSortDirs_pairwise _ (fun z hz => by
      have := (List.mem_filter.mp hz).2
      simpa using this)).imp ?_
    intro a b h
    exact fun _ _ => h
  · exact List.pairwise_of_forall_mem_list (fun a ha b hb h _ =>
      absurd ((hN a ha).1.symm.trans h) (by decide))
  · exact List.pairwise_of_forall_mem_list (fun a ha b hb h _ =>
      absurd ((hB a ha).1.symm.trans h) (by decide))
  · exact fun a ha b hb _ h => absurd ((hN b hb).1.symm.trans h) (by decide)
  · exact fun a ha c hc _ h => absurd ((hB c hc).1.symm.trans h) (by decide)
  · exact fun b hb c hc h _ => absurd ((hN b hb).1.symm.trans h) (by decide)

theorem uploadExecutionOrder_nonbinary_first (isBin : String → Bool) (l : List SimpleEntry) :
    (uploadExecutionOrder isBin l).Pairwise
      (fun x y => x.type = .file → y.type = .file →
        isBin x.path = true → isBin y.path = true) := by
  rw [uploadExecutionOrder_eq]
  have hA := mem_uploadDirsBlock l
  have hN := mem_uploadNonbinBlock isBin l
  have hB := mem_uploadBinBlock isBin l
  refine pairwise_append3 ?_ ?_ ?_ ?_ ?_ ?_
  · exact List.pairwise_of_forall_mem_list (fun a ha b hb h =>
      absurd ((hA a ha).symm.trans h) (by decide))
  · exact List.pairwise_of_forall_mem_list (fun a ha b hb _ _ hbin =>
      absurd ((hN a ha).2.symm.trans hbin) (by decide))
  · exact List.pairwise_of_forall_mem_list (fun a ha b hb _ _ _ => (hB b hb).2)
  · exact fun a ha b hb h _ _ => absurd ((hA a ha).symm.trans h) (by decide)
  · exact fun a ha c hc h _ _ => absurd ((hA a ha).symm.trans h) (by decide)
  · exact fun b hb c hc _ _ _ => (hB c hc).2

/-- Upload set of the ordering example of the specification:
`[{root/,d},{root/sub/,d},{root/sub/a.bin,f(binary)},{root/b.txt,f}]`. -/
def uploadOrderExample : List SimpleEntry :=
  [⟨"root/", .directory⟩, ⟨"root/sub/", .directory⟩,
   ⟨"root/sub/a.bin", .file⟩, ⟨"root/b.txt", .file⟩]

/-- Binary-detection oracle of the ordering example: only `root/sub/a.bin`
is binary. -/
def uploadOrderExampleIsBinary (p : String) : Bool :=
  p == "root/sub/a.bin"

/-- C2: on the concrete example the upload execution (pop) order is `root/`,
`root/sub/`, `root/b.txt`, `root/sub/a.bin`; in general the execution order
is a permutation of the upload set in which every Directory entry precedes
every File entry, directories appear in ascending path length (so a parent
directory is created before any deeper directory), and every non-binary
file precedes every binary file. -/
theorem C2_upload_execution_order :
    (uploadExecutionOrder uploadOrderExampleIsBinary uploadOrderExample =
      [⟨"root/", .directory⟩, ⟨"root/sub/", .directory⟩,
       ⟨"root/b.txt", .file⟩, ⟨"root/sub/a.bin", .file⟩]) ∧
    ∀ (isBinaryFile : String → Bool) (toUpload : List SimpleEntry),
      (uploadExecutionOrder isBinaryFile toUpload).Perm toUpload ∧
      (uploadExecutionOrder isBinaryFile toUpload).Pairwise
        (fun x y => x.type = .file → y.type = .file) ∧
      (uploadExecutionOrder isBinaryFile toUpload).Pairwise
        (fun x y => x.type = .directory → y.type = .directory →
          x.path.length ≤ y.path.length) ∧
      (uploadExecutionOrder isBinaryFile toUpload).Pairwise
        (fun x y => x.type = .file → y.type = .file →
          isBinaryFile x.path = true → isBinaryFile y.path = true) :=
  ⟨by decide, fun isBinaryFile toUpload =>
    ⟨uploadExecutionOrder_perm isBinaryFile toUpload,
     uploadExecutionOrder_dirs_first isBinaryFile toUpload,
     uploadExecutionOrder_dirs_by_length isBinaryFile toUpload,
     uploadExecutionOrder_nonbinary_first isBinaryFile toUpload⟩⟩

/-- C2 witness: the general ordering facts instantiated on the concrete
example upload set. -/
theorem C2_upload_execution_order_witness :
    (uploadExecutionOrder uploadOrderExampleIsBinary uploadOrderExample).Perm
      uploadOrderExample :=
  (C2_upload_execution_order.2 uploadOrderExampleIsBinary uploadOrderExample).1

/-- C6 counterexample: a removal set of two files in discovery order `a`, `b`
is issued to the transport as `b`, then `a` — the within-group execution
order is the reverse of discovery order, not discovery order as claimed. -/
theorem C6_removal_order_counterexample :
    removalExecutionOrder [⟨"a", .file⟩, ⟨"b", .file⟩] =
      [⟨"b", .file⟩, ⟨"a", .file⟩] ∧
    removalExecutionOrder [⟨"a", .file⟩, ⟨"b", .file⟩] ≠
      [⟨"a", .file⟩, ⟨"b", .file⟩] := by
  decide

/-- C6 (amended): the removal execution (pop) order places all File entries
before any Directory entry, and equals exactly the File entries in reverse
discovery order followed by the Directory entries in discovery order. -/
theorem C6_removal_execution_order (toRemove : List SimpleEntry) :
    (removalExecutionOrder toRemove).Pairwise
      (fun x y => x.type = .directory → y.type = .directory) ∧
    removalExecutionOrder toRemove =
      (toRemove.filter (fun e => e.type == .file)).reverse ++
        toRemove.filter (fun e => e.type == .directory) := by
  refine ⟨?_, removalExecutionOrder_eq toRemove⟩
  rw [removalExecutionOrder_eq]
  rw [List.pairwise_append]
  refine ⟨?_, ?_, ?_⟩
  · refine List.pairwise_of_forall_mem_list (fun a ha b hb h => ?_)
    have := (List.mem_filter.mp (List.mem_reverse.mp ha)).2
    simp only [beq_iff_eq] at this
    exact absurd (this.symm.trans h) (by decide)
  · refine List.pairwise_of_forall_mem_list (fun a ha b hb h => ?_)
    have := (List.mem_filter.mp hb).2
    simpa using this
  · intro a ha b hb h
    have := (List.mem_filter.mp hb).2
    simpa using this

/-- C6 witness: the amended execution-order equation at a concrete removal
set of one file and one directory. -/
theorem C6_removal_execution_order_witness :
    removalExecutionOrder [⟨"f", .file⟩, ⟨"d", .directory⟩] =
      (([⟨"f", .file⟩, ⟨"d", .directory⟩] : List SimpleEntry).filter
          (fun e => e.type == .file)).reverse ++
        ([⟨"f", .file⟩, ⟨"d", .directory⟩] : List SimpleEntry).filter
          (fun e => e.type == .directory) :=
  (C6_removal_execution_order [⟨"f", .file⟩, ⟨"d", .directory⟩]).2

/-- C3 witness: the second-session diff is empty at a concrete one-entry
inventory. -/
theorem C3_idempotence_witness :
    (sessionDiff .ftp
        (replaceSyncInfoFiles
          (sessionDiff .ftp ⟨.inventory [], none, none⟩ [⟨"a", .file, some "h"⟩] true).1 "R")
        [⟨"a", .file, some "h"⟩] true).2 =
      (([] : List SimpleEntry), ([] : List SimpleEntry)) :=
  C3_idempotence .ftp ⟨.inventory [], none, none⟩ [⟨"a", .file, some "h"⟩] "R"

/-- C4: after a session finalizes with revision token `R1`
(`replaceSyncInfoFiles` publishing `R1` into the cached revision
descriptor), resolving a fetched manifest that parses to `{revision: R1}`
takes the token-comparison branch: the verdict is trusted, no checksum of
the cached remote inventory is computed (for every digest function), and the
boolean passed to the diff is `true`. -/
theorem C4_revision_trust_roundtrip (md5 : FileData → String) (s : SyncFiles)
    (R1 : String) (h : R1 ≠ "") :
    checkBody md5
        { fetched := .ok (.descriptor R1),
          syncRevisionFile := ((replaceSyncInfoFiles s R1).syncRevision).map Except.ok,
          filesRemote := (replaceSyncInfoFiles s R1).filesRemote } =
      .ok { isExpectedCopy := true, usedChecksum := false, legacyWrite := none } ∧
    checkLocalListWithRemoteList md5
        { fetched := .ok (.descriptor R1),
          syncRevisionFile := ((replaceSyncInfoFiles s R1).syncRevision).map Except.ok,
          filesRemote := (replaceSyncInfoFiles s R1).filesRemote } = true := by
  have hbe : (R1 == "") = false := by
    simp [h]
  have hbody : checkBody md5
      { fetched := .ok (.descriptor R1),
        syncRevisionFile := ((replaceSyncInfoFiles s R1).syncRevision).map Except.ok,
        filesRemote := (replaceSyncInfoFiles s R1).filesRemote } =
      .ok { isExpectedCopy := true, usedChecksum := false, legacyWrite := none } := by
    simp [checkBody, replaceSyncInfoFiles, contentRevision, hbe]
  exact ⟨hbody, by simp [checkLocalListWithRemoteList, hbody]⟩

/-- C4 witness: the round trip at the concrete token `R1`. -/
theorem C4_revision_trust_roundtrip_witness :
    checkLocalListWithRemoteList (fun _ => "sum")
        { fetched := .ok (.descriptor "R1"),
          syncRevisionFile :=
            ((replaceSyncInfoFiles ⟨.inventory [], none, none⟩ "R1").syncRevision).map Except.ok,
          filesRemote := (replaceSyncInfoFiles ⟨.inventory [], none, none⟩ "R1").filesRemote } =
      true :=
  (C4_revision_trust_roundtrip (fun _ => "sum") ⟨.inventory [], none, none⟩ "R1"
    (by decide)).2

/-- C8: snapshot resolution is total and never fatal: whenever the body of
the `try` block throws, the verdict handed to the diff is `false` (not
trusted); the verdict is always one of the two booleans; and in particular a
malformed fetched manifest, a malformed cached `sync-revision.json`, and a
revision-bearing manifest with a missing cached `files-remote.json` all
resolve to `false`. -/
theorem C8_resolution_never_fatal (md5 : FileData → String) (i : ResolveInputs) :
    (∀ e, checkBody md5 i = .error e → checkLocalListWithRemoteList md5 i = false) ∧
    (checkLocalListWithRemoteList md5 i = true ∨
      checkLocalListWithRemoteList md5 i = false) ∧
    (i.fetched = .error () → checkLocalListWithRemoteList md5 i = false) ∧
    (i.syncRevisionFile = some (.error ()) → checkLocalListWithRemoteList md5 i = false) ∧
    (∀ rev, rev ≠ "" → i.fetched = .ok (.descriptor rev) → i.filesRemote = none →
      checkLocalListWithRemoteList md5 i = false) := by
  refine ⟨?_, ?_, ?_, ?_, ?_⟩
  · intro e he
    simp [checkLocalListWithRemoteList, he]
  · cases h : checkLocalListWithRemoteList md5 i
    · exact Or.inr rfl
    · exact Or.inl rfl
  · intro hf
    simp [checkLocalListWithRemoteList, checkBody, hf]
  · intro hs
    rcases hf : i.fetched with e | content
    · simp [checkLocalListWithRemoteList, checkBody, hf]
    · simp [checkLocalListWithRemoteList, checkBody, hf, hs]
  · intro rev hrev hf hr
    have hbe : (rev == "") = false := by simp [hrev]
    rcases hs : i.syncRevisionFile with _ | p
    · simp [checkLocalListWithRemoteList, checkBody, hf, hs, hr, contentRevision, hbe]
    · rcases p with e | fd
      · simp [checkLocalListWithRemoteList, checkBody, hf, hs]
      · simp [checkLocalListWithRemoteList, checkBody, hf, hs, hr, contentRevision, hbe]

/-- C8 witness: a malformed fetched manifest resolves to the not-trusted
verdict. -/
theorem C8_resolution_never_fatal_witness :
    checkLocalListWithRemoteList (fun _ => "sum") ⟨.error (), none, none⟩ = false :=
  (C8_resolution_never_fatal (fun _ => "sum") ⟨.error (), none, none⟩).2.2.1 rfl

/-- C5: a non-binary file's fingerprint is the digest of its raw content
bytes (so hashing the same content twice yields the same fingerprint), and a
binary file's fingerprint is the digest of the decimal-digit bytes of its
byte size (so any two binary files of equal length share a fingerprint,
whatever their contents). -/
theorem C5_fingerprint (md5 : List Nat → String) (c1 c2 : List Nat) :
    (fileFingerprint md5 false c1 = md5 c1) ∧
    (c1 = c2 → fileFingerprint md5 false c1 = fileFingerprint md5 false c2) ∧
    (fileFingerprint md5 true c1 = md5 (md5SizeInput c1.length)) ∧
    (c1.length = c2.length → fileFingerprint md5 true c1 = fileFingerprint md5 true c2) := by
  refine ⟨rfl, fun h => by rw [h], rfl, fun h => ?_⟩
  show md5 (md5SizeInput c1.length) = md5 (md5SizeInput c2.length)
  rw [h]

/-- C5 witness: two distinct two-byte binary contents share a fingerprint. -/
theorem C5_fingerprint_witness :
    ([0, 1] : List Nat).length = ([7, 9] : List Nat).length ∧
    fileFingerprint (fun bytes => (bytes.foldl (fun a b => a + b) 0).repr) true [0, 1] =
      fileFingerprint (fun bytes => (bytes.foldl (fun a b => a + b) 0).repr) true [7, 9] :=
  ⟨by decide,
   (C5_fingerprint (fun bytes => (bytes.foldl (fun a b => a + b) 0).repr) [0, 1] [7, 9]).2.2.2
     (by decide)⟩

/-- C10: the walk includes a `.htaccess` below a subdirectory (pushing the
path `/sub/.htaccess`); that nested path is processed by the generic file
branch, so it enters the inventory with a content digest for every
transport (the special filenames match only the bare root-level path); the
root-level copies are excluded exactly for the transports of
`excludedProtocols`; and every walk path other than the three special bare
names that is not a directory enters the inventory for every transport. -/
theorem C10_nested_special_files (protocol : Protocol) (md5 : List Nat → String)
    (fs : LocalFS) (h1 : fs.isDirectory "/sub/.htaccess" = false)
    (h2 : fs.isBinaryFile "/sub/.htaccess" = false) :
    (readDirRecursiveSync "" [.dir "sub" [.file ".htaccess"]] = ["sub", "/sub/.htaccess"]) ∧
    (walkIncludesFileName ".htaccess" = true ∧ walkIncludesFileName "_redirects" = true) ∧
    (processLocalPath protocol md5 fs "/sub/.htaccess" =
      some { path := "/sub/.htaccess", type := .file,
             md5 := some (md5 (fs.content "/sub/.htaccess")) }) ∧
    (processLocalPath .s3 md5 fs ".htaccess" = none ∧
     processLocalPath .githubPages md5 fs ".htaccess" = none ∧
     processLocalPath .googleCloud md5 fs ".htaccess" = none ∧
     processLocalPath .netlify md5 fs ".htaccess" = none ∧
     processLocalPath .s3 md5 fs "_redirects" = none) ∧
    (∀ filePath : String, filePath ≠ ".git" → filePath ≠ ".htaccess" →
      filePath ≠ "_redirects" → fs.isDirectory filePath = false →
      processLocalPath protocol md5 fs filePath =
        some { path := filePath, type := .file,
               md5 := some (fileFingerprint md5 (fs.isBinaryFile filePath)
                 (fs.content filePath)) }) := by
  refine ⟨by simp [readDirRecursiveSync, walkIncludesFileName, nameBeginsWithDot, joinRel],
    ⟨by decide, by decide⟩, ?_, ⟨by rfl, by rfl, by rfl, by rfl, by rfl⟩, ?_⟩
  · rw [processLocalPath, if_neg (by decide), if_neg (by decide),
      if_neg (by simp [h1])]
    rw [h2]
    simp [fileFingerprint]
  · intro filePath hgit hht hred hdir
    rw [processLocalPath, if_neg (by simp [hgit]), if_neg (by simp [hht, hred]),
      if_neg (by simp [hdir])]

/-- C10 witness: the nested inclusion at a concrete filesystem oracle. -/
theorem C10_nested_special_files_witness :
    processLocalPath .s3 (fun _ => "digest")
        ⟨fun _ => false, fun _ => false, fun _ => []⟩ "/sub/.htaccess" =
      some { path := "/sub/.htaccess", type := .file, md5 := some "digest" } :=
  (C10_nested_special_files .s3 (fun _ => "digest")
    ⟨fun _ => false, fun _ => false, fun _ => []⟩ rfl rfl).2.2.1

end Publii
